import Mathlib

/-!
Shallow embedding of the search-result normalization and ranking pipeline of
`sudoTmdb/sudoTmdb.py` (the `movie`, `tvshow` and `people` commands of the
`TheMovieDB` cog), together with theorems settling the frozen claims about it.

Modelling conventions:
* a TMDB search-result dict is a `ResultRec`; the fields the code touches
  (`id`, `title`, `name`, `popularity`) are explicit, all other key/value
  pairs are carried opaquely in `extra`;
* Python floats are modelled by `ℚ` (the pipeline's arithmetic is
  division and scaling, exact over `ℚ`);
* fallible Python expressions (`d[k]` raising `KeyError`, `max()` on an empty
  sequence raising `ValueError`, division by zero raising
  `ZeroDivisionError`) return `Except PyErr`;
* `rapidfuzz.fuzz.token_set_ratio` is an external library call and is
  modelled as an explicit function parameter `sim`;
* Python's `sorted(..., key=k, reverse=True)` is a stable descending sort by
  the key; it is modelled by `List.insertionSort` with the relation `rdesc`
  (descending on the precomputed key), which is stable in the same sense.
-/

namespace SudoTmdb

/-- A TMDB search-result record, as the dicts in `data["results"]`.
`id`, `title`, `name`, `popularity` are the keys the pipeline reads
(`Option` because a dict may lack them); `extra` carries all other
key/value pairs opaquely. -/
structure ResultRec where
  id : Int
  title : Option String
  name : Option String
  popularity : Option ℚ
  extra : List (String × String)
  deriving DecidableEq

/-- The errors the pipeline can raise.  `valueError` models Python's
`ValueError` raised by `max()` on an empty sequence; `keyError k` models
`KeyError` on a dict lookup of key `k`; `zeroDivisionError` models
`ZeroDivisionError`.  `emptyInput` is the spec's abstract `EmptyInput`
error (modelled from the spec's error taxonomy; no code in the source
raises it — it exists so the claim about it can be stated). -/
inductive PyErr where
  | valueError
  | keyError (key : String)
  | zeroDivisionError
  | emptyInput
  deriving DecidableEq

/-- The movie path's lenient popularity read, `result.get("popularity", 0)`. -/
def movieRawPop (r : ResultRec) : ℚ :=
  r.popularity.getD 0

/-- The strict popularity read `result["popularity"]` of the tvshow and
people paths; raises `KeyError` when the key is absent. -/
def getPopStrict (r : ResultRec) : Except PyErr ℚ :=
  match r.popularity with
  | none => .error (.keyError "popularity")
  | some p => .ok p

/-- Evaluate a fallible function over a list left to right, propagating the
first error — the semantics of a Python generator/list comprehension whose
element expression may raise. -/
def mapE (f : α → Except PyErr β) : List α → Except PyErr (List β)
  | [] => .ok []
  | a :: as =>
    match f a with
    | .error e => .error e
    | .ok b =>
      match mapE f as with
      | .error e => .error e
      | .ok bs => .ok (b :: bs)

/-- Model of `max(result.get("popularity", 0) for result in results)`, line 160:
`ValueError` on an empty sequence, otherwise the maximum. -/
def movieMaxPop (rs : List ResultRec) : Except PyErr ℚ :=
  match rs.map movieRawPop with
  | [] => .error .valueError
  | p :: ps => .ok (ps.foldl max p)

/-- One element of the movie rescaling comprehension (lines 162–167):
rebuild the dict with `"popularity"` set to `(raw / max) * 100` when the
maximum is truthy (nonzero), else `0`. -/
def movieRescale (m : ℚ) (r : ResultRec) : ResultRec :=
  { r with popularity := some (if m = 0 then 0 else movieRawPop r / m * 100) }

/-- The movie command's normalization (lines 160–169): compute the maximum
of the lenient popularity reads, then rescale every record. -/
def movieNormalize (rs : List ResultRec) : Except PyErr (List ResultRec) :=
  match movieMaxPop rs with
  | .error e => .error e
  | .ok m => .ok (rs.map (movieRescale m))

/-- One element of the tvshow/people rescaling comprehension (lines 228,
279): read `result["popularity"]` strictly, then divide by the maximum —
`ZeroDivisionError` when the maximum is zero. -/
def tvRescale (m : ℚ) (r : ResultRec) : Except PyErr ResultRec :=
  match r.popularity with
  | none => .error (.keyError "popularity")
  | some p =>
    if m = 0 then .error .zeroDivisionError
    else .ok { r with popularity := some (p / m * 100) }

/-- The tvshow command's normalization (lines 226–230): strict reads for the
maximum (`KeyError` if a record lacks `popularity`, `ValueError` if the list
is empty), then the rescaling comprehension with no zero-max guard. -/
def tvNormalize (rs : List ResultRec) : Except PyErr (List ResultRec) :=
  match mapE getPopStrict rs with
  | .error e => .error e
  | .ok [] => .error .valueError
  | .ok (p :: ps) => mapE (tvRescale (ps.foldl max p)) rs

/-- The people command's normalization (lines 277–281) — textually identical
to the tvshow command's. -/
def peopleNormalize (rs : List ResultRec) : Except PyErr (List ResultRec) :=
  match mapE getPopStrict rs with
  | .error e => .error e
  | .ok [] => .error .valueError
  | .ok (p :: ps) => mapE (tvRescale (ps.foldl max p)) rs

/-- Descending order on key/record pairs: `p` may come before `q` when `q`'s
key is at most `p`'s.  This is the comparison `sorted(..., reverse=True)`
sorts by, applied to the precomputed sort keys. -/
def rdesc (p q : ℚ × ResultRec) : Prop :=
  q.1 ≤ p.1

instance : DecidableRel rdesc :=
  fun p q => inferInstanceAs (Decidable (q.1 ≤ p.1))

instance : IsTotal (ℚ × ResultRec) rdesc :=
  ⟨fun p q => le_total q.1 p.1⟩

instance : IsTrans (ℚ × ResultRec) rdesc :=
  ⟨fun _ _ _ hab hbc => le_trans hbc hab⟩

/-- The movie sort key (line 173):
`fuzz.token_set_ratio(query, x["title"]) + x["popularity"]`.
`x["title"]` is evaluated first, then `x["popularity"]`; either lookup may
raise `KeyError`. -/
def movieKey (sim : String → String → ℚ) (query : String) (r : ResultRec) :
    Except PyErr ℚ :=
  match r.title with
  | none => .error (.keyError "title")
  | some t =>
    match r.popularity with
    | none => .error (.keyError "popularity")
    | some p => .ok (sim query t + p)

/-- The tvshow/people sort key (lines 234, 285):
`fuzz.token_set_ratio(query, x["name"]) + x["popularity"]`. -/
def nameKey (sim : String → String → ℚ) (query : String) (r : ResultRec) :
    Except PyErr ℚ :=
  match r.name with
  | none => .error (.keyError "name")
  | some t =>
    match r.popularity with
    | none => .error (.keyError "popularity")
    | some p => .ok (sim query t + p)

/-- Python computes the sort key once per element, in input order, before
sorting (decorate step); the first failing key computation propagates. -/
def decorate (keyF : ResultRec → Except PyErr ℚ) (rs : List ResultRec) :
    Except PyErr (List (ℚ × ResultRec)) :=
  mapE (fun r =>
    match keyF r with
    | .error e => .error e
    | .ok k => .ok (k, r)) rs

/-- Model of `sorted(results, key=..., reverse=True)`: decorate with the keys, stable
sort descending by key, return the records. -/
def pySortedByDesc (keyF : ResultRec → Except PyErr ℚ) (rs : List ResultRec) :
    Except PyErr (List ResultRec) :=
  match decorate keyF rs with
  | .error e => .error e
  | .ok keyed => .ok ((List.insertionSort rdesc keyed).map Prod.snd)

/-- The movie command's ranking sort (lines 171–175). -/
def rankMovie (sim : String → String → ℚ) (query : String)
    (rs : List ResultRec) : Except PyErr (List ResultRec) :=
  pySortedByDesc (movieKey sim query) rs

/-- The tvshow command's ranking sort (lines 232–236). -/
def rankTv (sim : String → String → ℚ) (query : String)
    (rs : List ResultRec) : Except PyErr (List ResultRec) :=
  pySortedByDesc (nameKey sim query) rs

/-- The people command's ranking sort (lines 283–287). -/
def rankPeople (sim : String → String → ℚ) (query : String)
    (rs : List ResultRec) : Except PyErr (List ResultRec) :=
  pySortedByDesc (nameKey sim query) rs

/-- The movie command's normalize-then-rank pipeline. -/
def moviePipeline (sim : String → String → ℚ) (query : String)
    (rs : List ResultRec) : Except PyErr (List ResultRec) :=
  match movieNormalize rs with
  | .error e => .error e
  | .ok normed => rankMovie sim query normed

/-- The tvshow command's normalize-then-rank pipeline. -/
def tvPipeline (sim : String → String → ℚ) (query : String)
    (rs : List ResultRec) : Except PyErr (List ResultRec) :=
  match tvNormalize rs with
  | .error e => .error e
  | .ok normed => rankTv sim query normed

/-- The people command's normalize-then-rank pipeline. -/
def peoplePipeline (sim : String → String → ℚ) (query : String)
    (rs : List ResultRec) : Except PyErr (List ResultRec) :=
  match peopleNormalize rs with
  | .error e => .error e
  | .ok normed => rankPeople sim query normed

/-- Python's `str.lower()`, restricted to the characters that can occur in
the blocked-term comparison: ASCII letters via `Char.toLower`, plus the
Latin-1 letter Ø (which occurs in one blocked term) explicitly.  Other
non-ASCII uppercase letters are left unchanged; no claim depends on them. -/
def pyLower (s : String) : String :=
  String.mk (s.data.map fun c => if c = 'Ø' then 'ø' else c.toLower)

/-- The module-level blocked-terms set (line 52). -/
def BLOCKED_SEARCH : List String :=
  ["utoya: july 22", "utøya: july 22", "22 july", "22 juli"]

/-- The observable outcome of one command invocation, abstracting the
Discord side effects: `blockedMsg q` is the blocked-term reply followed by
`return`; `apiFailMsg` the `if not data` reply; `noResults` the early return
when `check_results` is falsy; `raised e` an uncaught exception from the
pipeline; `pages rs` the ranked list handed to page building. -/
inductive CmdOutcome where
  | blockedMsg (query : String)
  | apiFailMsg
  | noResults
  | raised (e : PyErr)
  | pages (results : List ResultRec)
  deriving DecidableEq

/-- The `movie` command's control flow (lines 145–175): blocked-term guard,
then the search call (its parsed `data["results"]` is the `data` parameter,
`none` when `search_media` returned a falsy value), then the
`check_results` gate (a collaborator outside this file's source, modelled
as the Boolean `checkOk`), then normalize and rank. -/
def movie (sim : String → String → ℚ) (query : String)
    (data : Option (List ResultRec)) (checkOk : Bool) : CmdOutcome :=
  if pyLower query ∈ BLOCKED_SEARCH then .blockedMsg query
  else
    match data with
    | none => .apiFailMsg
    | some results =>
      if checkOk then
        match moviePipeline sim query results with
        | .error e => .raised e
        | .ok ranked => .pages ranked
      else .noResults

/-- The `tvshow` command's control flow (lines 211–236), analogous to
`movie`. -/
def tvshow (sim : String → String → ℚ) (query : String)
    (data : Option (List ResultRec)) (checkOk : Bool) : CmdOutcome :=
  if pyLower query ∈ BLOCKED_SEARCH then .blockedMsg query
  else
    match data with
    | none => .apiFailMsg
    | some results =>
      if checkOk then
        match tvPipeline sim query results with
        | .error e => .raised e
        | .ok ranked => .pages ranked
      else .noResults

/-- The `people` command's control flow (lines 265–287): it has no
blocked-term guard. -/
def people (sim : String → String → ℚ) (query : String)
    (data : Option (List ResultRec)) (checkOk : Bool) : CmdOutcome :=
  match data with
  | none => .apiFailMsg
  | some results =>
    if checkOk then
      match peoplePipeline sim query results with
      | .error e => .raised e
      | .ok ranked => .pages ranked
    else .noResults

/-- Replace an absent popularity by an explicit `0` — the reading the movie
path's `result.get("popularity", 0)` gives a record. -/
def fillPopZero (r : ResultRec) : ResultRec :=
  { r with popularity := some (r.popularity.getD 0) }

/-- Per-record frame condition: `b` agrees with `a` on every field other
than `popularity`. -/
def sameFrame (a b : ResultRec) : Prop :=
  b.id = a.id ∧ b.title = a.title ∧ b.name = a.name ∧ b.extra = a.extra

/-! ### Helper lemmas -/

theorem mapE_ok_forall2 {f : α → Except PyErr β} :
    ∀ {l : List α} {ys : List β}, mapE f l = .ok ys →
      List.Forall₂ (fun a b => f a = .ok b) l ys := by
  intro l
  induction l with
  | nil =>
    intro ys h
    simp only [mapE, Except.ok.injEq] at h
    subst h
    exact List.Forall₂.nil
  | cons a as ih =>
    intro ys h
    simp only [mapE] at h
    cases hfa : f a with
    | error e => rw [hfa] at h; simp at h
    | ok b =>
      rw [hfa] at h
      cases hrest : mapE f as with
      | error e => rw [hrest] at h; simp at h
      | ok bs =>
        rw [hrest] at h
        simp only [Except.ok.injEq] at h
        subst h
        exact List.Forall₂.cons hfa (ih hrest)

theorem mapE_ok_of_forall {f : α → Except PyErr β} {g : α → β} :
    ∀ {l : List α}, (∀ a ∈ l, f a = .ok (g a)) → mapE f l = .ok (l.map g) := by
  intro l
  induction l with
  | nil => intro _; rfl
  | cons a as ih =>
    intro h
    have ha : f a = .ok (g a) := h a (List.mem_cons_self a as)
    have hrest : mapE f as = .ok (as.map g) :=
      ih fun x hx => h x (List.mem_cons_of_mem a hx)
    simp only [mapE, ha, hrest, List.map_cons]

theorem mapE_error_of {f : α → Except PyErr β} {e : PyErr} :
    ∀ {l : List α}, (∀ a ∈ l, f a = .error e ∨ ∃ b, f a = .ok b) →
      (∃ a ∈ l, f a = .error e) → mapE f l = .error e := by
  intro l
  induction l with
  | nil =>
    intro _ hex
    rcases hex with ⟨a, ha, _⟩
    exact absurd ha (List.not_mem_nil a)
  | cons a as ih =>
    intro hall hex
    rcases hall a (List.mem_cons_self a as) with ha | ⟨b, hb⟩
    · simp only [mapE, ha]
    · have hex' : ∃ x ∈ as, f x = .error e := by
        rcases hex with ⟨x, hx, hfx⟩
        rcases List.mem_cons.mp hx with rfl | hx'
        · rw [hfx] at hb; exact absurd hb (by simp)
        · exact ⟨x, hx', hfx⟩
      have hrest := ih (fun x hx => hall x (List.mem_cons_of_mem a hx)) hex'
      simp only [mapE, hb, hrest]

theorem le_foldl_max : ∀ (l : List ℚ) (a : ℚ), a ≤ l.foldl max a := by
  intro l
  induction l with
  | nil => intro a; exact le_refl a
  | cons b l ih =>
    intro a
    exact le_trans (le_max_left a b) (ih (max a b))

theorem mem_le_foldl_max {x : ℚ} :
    ∀ {l : List ℚ} (a : ℚ), x ∈ l → x ≤ l.foldl max a := by
  intro l
  induction l with
  | nil => intro a hx; exact absurd hx (List.not_mem_nil x)
  | cons b l ih =>
    intro a hx
    rcases List.mem_cons.mp hx with rfl | hx'
    · exact le_trans (le_max_right a x) (le_foldl_max l (max a x))
    · exact ih (max a b) hx'

theorem foldl_max_mem : ∀ (l : List ℚ) (a : ℚ), l.foldl max a = a ∨ l.foldl max a ∈ l := by
  intro l
  induction l with
  | nil => intro a; exact Or.inl rfl
  | cons b l ih =>
    intro a
    rcases ih (max a b) with h | h
    · rcases max_choice a b with hab | hab
      · exact Or.inl (by rw [List.foldl_cons, h, hab])
      · exact Or.inr (by rw [List.foldl_cons, h, hab]; exact List.mem_cons_self b l)
    · exact Or.inr (List.mem_cons_of_mem b (by rw [List.foldl_cons]; exact h))

theorem decorate_ok_forall2 {keyF : ResultRec → Except PyErr ℚ}
    {rs : List ResultRec} {keyed : List (ℚ × ResultRec)}
    (h : decorate keyF rs = .ok keyed) :
    List.Forall₂ (fun r p => keyF r = .ok p.1 ∧ p.2 = r) rs keyed := by
  have h2 := mapE_ok_forall2 h
  refine h2.imp fun r p hp => ?_
  cases hk : keyF r with
  | error e => rw [hk] at hp; simp at hp
  | ok k =>
    rw [hk] at hp
    simp only [Except.ok.injEq] at hp
    subst hp
    exact ⟨rfl, rfl⟩

theorem decorate_ok_snd {keyF : ResultRec → Except PyErr ℚ}
    {rs : List ResultRec} {keyed : List (ℚ × ResultRec)}
    (h : decorate keyF rs = .ok keyed) :
    keyed.map Prod.snd = rs := by
  have h2 := decorate_ok_forall2 h
  clear h
  induction h2 with
  | nil => rfl
  | cons hr _ ih => simp [ih, hr.2]

theorem sorted_fst_insertionSort (keyed : List (ℚ × ResultRec)) :
    List.Sorted (fun a b : ℚ => b ≤ a)
      ((List.insertionSort rdesc keyed).map Prod.fst) := by
  have hs := List.sorted_insertionSort rdesc keyed
  exact hs.map Prod.fst (fun a b h => h)

theorem filter_orderedInsert (s : ℚ) (x : ℚ × ResultRec) :
    ∀ l : List (ℚ × ResultRec),
      (List.orderedInsert rdesc x l).filter (fun p => p.1 = s) =
        if x.1 = s then x :: l.filter (fun p => p.1 = s)
        else l.filter (fun p => p.1 = s) := by
  intro l
  induction l with
  | nil =>
    by_cases hx : x.1 = s <;> simp [List.filter_cons, hx]
  | cons b l ih =>
    simp only [List.orderedInsert]
    by_cases hxb : rdesc x b
    · rw [if_pos hxb]
      by_cases hx : x.1 = s <;> by_cases hb : b.1 = s <;>
        simp [List.filter_cons, hx, hb]
    · rw [if_neg hxb]
      have hlt : x.1 < b.1 := lt_of_not_le hxb
      by_cases hx : x.1 = s
      · have hb : b.1 ≠ s := by
          intro hbs
          rw [hx, hbs] at hlt
          exact lt_irrefl s hlt
        simp [List.filter_cons, hx, hb, ih]
      · simp [List.filter_cons, hx, ih]

theorem filter_insertionSort (s : ℚ) :
    ∀ keyed : List (ℚ × ResultRec),
      (List.insertionSort rdesc keyed).filter (fun p => p.1 = s) =
        keyed.filter (fun p => p.1 = s) := by
  intro keyed
  induction keyed with
  | nil => rfl
  | cons x ks ih =>
    simp only [List.insertionSort]
    rw [filter_orderedInsert, ih]
    by_cases hx : x.1 = s <;> simp [List.filter_cons, hx]

theorem pySortedByDesc_perm {keyF : ResultRec → Except PyErr ℚ}
    {rs out : List ResultRec} (h : pySortedByDesc keyF rs = .ok out) :
    out.Perm rs := by
  unfold pySortedByDesc at h
  cases hd : decorate keyF rs with
  | error e => rw [hd] at h; simp at h
  | ok keyed =>
    rw [hd] at h
    simp only [Except.ok.injEq] at h
    subst h
    have hperm := (List.perm_insertionSort rdesc keyed).map Prod.snd
    rwa [decorate_ok_snd hd] at hperm

theorem peopleNormalize_eq_tvNormalize : peopleNormalize = tvNormalize :=
  rfl

theorem movieNormalize_ok_shape {rs out : List ResultRec}
    (h : movieNormalize rs = .ok out) :
    ∃ m, movieMaxPop rs = .ok m ∧ out = rs.map (movieRescale m) := by
  unfold movieNormalize at h
  cases hm : movieMaxPop rs with
  | error e => rw [hm] at h; simp at h
  | ok m =>
    rw [hm] at h
    simp only [Except.ok.injEq] at h
    exact ⟨m, rfl, h.symm⟩

theorem tvRescale_ok_shape {m : ℚ} {r b : ResultRec}
    (h : tvRescale m r = .ok b) :
    ∃ p, r.popularity = some p ∧ m ≠ 0 ∧
      b = { r with popularity := some (p / m * 100) } := by
  unfold tvRescale at h
  split at h
  · simp at h
  · rename_i p hp
    split at h
    · simp at h
    · rename_i hm
      simp only [Except.ok.injEq] at h
      exact ⟨p, hp, hm, h.symm⟩

theorem tvNormalize_ok_forall2 {rs out : List ResultRec}
    (h : tvNormalize rs = .ok out) :
    ∃ p ps, mapE getPopStrict rs = .ok (p :: ps) ∧
      List.Forall₂ (fun r b => tvRescale (ps.foldl max p) r = .ok b) rs out := by
  unfold tvNormalize at h
  cases hps : mapE getPopStrict rs with
  | error e => rw [hps] at h; simp at h
  | ok qs =>
    rw [hps] at h
    cases qs with
    | nil => simp at h
    | cons p ps => exact ⟨p, ps, rfl, mapE_ok_forall2 h⟩

theorem movieNormalize_popSome {rs out : List ResultRec}
    (h : movieNormalize rs = .ok out) :
    ∀ r ∈ out, r.popularity.isSome := by
  rcases movieNormalize_ok_shape h with ⟨m, _, rfl⟩
  intro r hr
  rcases List.mem_map.mp hr with ⟨a, _, rfl⟩
  rfl

theorem forall2_mem_right {R : α → β → Prop} :
    ∀ {l : List α} {ys : List β}, List.Forall₂ R l ys →
      ∀ b ∈ ys, ∃ a ∈ l, R a b := by
  intro l ys h
  induction h with
  | nil => intro b hb; exact absurd hb (List.not_mem_nil b)
  | cons hr _ ih =>
    intro b hb
    rcases List.mem_cons.mp hb with rfl | hb'
    · exact ⟨_, List.mem_cons_self _ _, hr⟩
    · rcases ih b hb' with ⟨a, ha, har⟩
      exact ⟨a, List.mem_cons_of_mem _ ha, har⟩

theorem tvNormalize_popSome {rs out : List ResultRec}
    (h : tvNormalize rs = .ok out) :
    ∀ r ∈ out, r.popularity.isSome := by
  rcases tvNormalize_ok_forall2 h with ⟨p, ps, _, h2⟩
  intro b hb
  rcases forall2_mem_right h2 b hb with ⟨a, _, ha⟩
  rcases tvRescale_ok_shape ha with ⟨q, _, _, rfl⟩
  rfl

theorem forall2_mem_left {R : α → β → Prop} :
    ∀ {l : List α} {ys : List β}, List.Forall₂ R l ys →
      ∀ a ∈ l, ∃ b ∈ ys, R a b := by
  intro l ys h
  induction h with
  | nil => intro a ha; exact absurd ha (List.not_mem_nil a)
  | cons hr _ ih =>
    intro a ha
    rcases List.mem_cons.mp ha with rfl | ha'
    · exact ⟨_, List.mem_cons_self _ _, hr⟩
    · rcases ih a ha' with ⟨b, hb, hbr⟩
      exact ⟨b, List.mem_cons_of_mem _ hb, hbr⟩

theorem getPopStrict_ok {r : ResultRec} {v : ℚ} (h : getPopStrict r = .ok v) :
    r.popularity = some v := by
  unfold getPopStrict at h
  split at h
  · simp at h
  · rename_i p hp
    simp only [Except.ok.injEq] at h
    rw [hp, h]

theorem div_mul_hundred {p m : ℚ} (hm : m ≠ 0) :
    p / m * 100 = 100 ↔ p = m := by
  rw [div_mul_eq_mul_div, div_eq_iff hm]
  constructor
  · intro h
    have h100 : (100 : ℚ) ≠ 0 := by norm_num
    exact mul_right_cancel₀ h100 (by rw [h, mul_comm])
  · intro h
    rw [h, mul_comm]

/-! ### Claims -/

/-- Claim C5, counterexample.  The claim says normalization on an empty result
list "fails fast by raising an EmptyInput error, rather than crashing on an
undefined maximum".  On the empty list the movie normalization raises
Python's `ValueError` from `max()` over an empty sequence — exactly the
undefined-maximum crash — and not a dedicated `EmptyInput` error. -/
theorem claim5_counterexample :
    movieNormalize [] = .error .valueError ∧
    movieNormalize [] ≠ .error .emptyInput := by
  refine ⟨rfl, ?_⟩
  intro h
  rw [show movieNormalize [] = .error .valueError from rfl] at h
  injection h with h'
  exact PyErr.noConfusion h'

/-- Claim C5, amended.  When normalization is invoked on an empty result
list (in any of the three commands), it fails immediately — but with
`ValueError` raised by taking the maximum of an empty sequence, not with a
dedicated `EmptyInput` error. -/
theorem claim5_amended :
    movieNormalize [] = .error .valueError ∧
    tvNormalize [] = .error .valueError ∧
    peopleNormalize [] = .error .valueError :=
  ⟨rfl, rfl, rfl⟩

/-- Claim C1, counterexample.  The claim says all three commands normalize an
all-zero-popularity list to all-zero outputs without a division by zero.
The tvshow normalization has no zero-max guard: on a single result of raw
popularity `0` it raises `ZeroDivisionError`. -/
theorem claim1_counterexample :
    tvNormalize [⟨1, none, some "a", some 0, []⟩] = .error .zeroDivisionError :=
  rfl

/-- Claim C1, amended.  For a non-empty input in which every raw popularity is
zero, the movie command's normalization assigns every output result a
normalized popularity of `0` without dividing by zero; the tvshow and
people normalizations instead raise `ZeroDivisionError` on such input. -/
theorem claim1_amended (rs out rs2 : List ResultRec)
    (h1 : movieNormalize rs = .ok out)
    (h0 : ∀ r ∈ rs, movieRawPop r = 0)
    (hne : rs2 ≠ [])
    (h02 : ∀ r ∈ rs2, r.popularity = some 0) :
    (∀ r ∈ out, r.popularity = some 0) ∧
    tvNormalize rs2 = .error .zeroDivisionError ∧
    peopleNormalize rs2 = .error .zeroDivisionError := by
  have hmovie : ∀ r ∈ out, r.popularity = some 0 := by
    rcases movieNormalize_ok_shape h1 with ⟨m, _, rfl⟩
    intro r hr
    rcases List.mem_map.mp hr with ⟨a, ha, rfl⟩
    by_cases hm : m = 0
    · simp [movieRescale, hm]
    · simp [movieRescale, hm, h0 a ha]
  have hstrict : ∀ r ∈ rs2, getPopStrict r = .ok 0 := by
    intro r hr
    simp [getPopStrict, h02 r hr]
  have hps : mapE getPopStrict rs2 = .ok (rs2.map fun _ => (0 : ℚ)) :=
    mapE_ok_of_forall hstrict
  have htv : tvNormalize rs2 = .error .zeroDivisionError := by
    rcases rs2 with _ | ⟨a, as⟩
    · exact absurd rfl hne
    · rw [tvNormalize, hps]
      simp only [List.map_cons]
      have hm0 : ((as.map fun _ => (0 : ℚ)).foldl max 0) = 0 := by
        rcases foldl_max_mem (as.map fun _ => (0 : ℚ)) 0 with h | h
        · exact h
        · rcases List.mem_map.mp h with ⟨_, _, hz⟩
          exact hz.symm
      rw [hm0]
      have ha : tvRescale 0 a = .error .zeroDivisionError := by
        simp [tvRescale, h02 a (List.mem_cons_self a as)]
      simp [mapE, ha]
  exact ⟨hmovie, htv, by rw [peopleNormalize_eq_tvNormalize]; exact htv⟩

/-- Witness for `claim1_amended` at a concrete input: one record of raw
popularity `0`. -/
theorem claim1_amended_witness :
    (movieNormalize [⟨1, some "a", none, some 0, []⟩] =
        .ok [⟨1, some "a", none, some 0, []⟩] ∧
      (∀ r ∈ ([⟨1, some "a", none, some 0, []⟩] : List ResultRec),
        movieRawPop r = 0) ∧
      ([⟨1, some "a", none, some 0, []⟩] : List ResultRec) ≠ [] ∧
      (∀ r ∈ ([⟨1, some "a", none, some 0, []⟩] : List ResultRec),
        r.popularity = some 0)) ∧
    ((∀ r ∈ ([⟨1, some "a", none, some 0, []⟩] : List ResultRec),
        r.popularity = some 0) ∧
      tvNormalize [⟨1, some "a", none, some 0, []⟩] = .error .zeroDivisionError ∧
      peopleNormalize [⟨1, some "a", none, some 0, []⟩] =
        .error .zeroDivisionError) :=
  ⟨⟨rfl, by decide, by decide, by decide⟩,
    claim1_amended [⟨1, some "a", none, some 0, []⟩]
      [⟨1, some "a", none, some 0, []⟩] [⟨1, some "a", none, some 0, []⟩]
      rfl (by decide) (by decide) (by decide)⟩

/-- Claim C8.  The normalize-then-rank pipeline is deterministic: two
invocations with the same similarity scorer, the same query and the same
result list produce identical outputs, for each of the three commands.  The
embedding is a pure function of exactly these inputs, which reflects that
the Python code reads no mutable state in this computation. -/
theorem claim8 (sim : String → String → ℚ) (q1 q2 : String)
    (rs1 rs2 : List ResultRec) (hq : q1 = q2) (hrs : rs1 = rs2) :
    moviePipeline sim q1 rs1 = moviePipeline sim q2 rs2 ∧
    tvPipeline sim q1 rs1 = tvPipeline sim q2 rs2 ∧
    peoplePipeline sim q1 rs1 = peoplePipeline sim q2 rs2 := by
  subst hq
  subst hrs
  exact ⟨rfl, rfl, rfl⟩

/-- Witness for `claim8` at a concrete query and result list. -/
theorem claim8_witness :
    ("q" = "q" ∧ [(⟨1, some "a", some "b", some 1, []⟩ : ResultRec)] =
      [⟨1, some "a", some "b", some 1, []⟩]) ∧
    (moviePipeline (fun _ _ => 0) "q" [⟨1, some "a", some "b", some 1, []⟩] =
        moviePipeline (fun _ _ => 0) "q" [⟨1, some "a", some "b", some 1, []⟩] ∧
      tvPipeline (fun _ _ => 0) "q" [⟨1, some "a", some "b", some 1, []⟩] =
        tvPipeline (fun _ _ => 0) "q" [⟨1, some "a", some "b", some 1, []⟩] ∧
      peoplePipeline (fun _ _ => 0) "q" [⟨1, some "a", some "b", some 1, []⟩] =
        peoplePipeline (fun _ _ => 0) "q" [⟨1, some "a", some "b", some 1, []⟩]) :=
  ⟨⟨rfl, rfl⟩, claim8 (fun _ _ => 0) "q" "q" _ _ rfl rfl⟩

/-- Claim C10.  A query whose (Python) lowercase form is one of the four
blocked search terms makes the `movie` and `tvshow` commands return the
blocked-term reply before any search, normalization or ranking — the
outcome is `blockedMsg` whatever the search data and `check_results`
outcome would have been — while the `people` command has no blocked-term
check and can never produce a `blockedMsg` outcome. -/
theorem claim10 (sim : String → String → ℚ) (q : String)
    (d : Option (List ResultRec)) (c : Bool)
    (hb : pyLower q ∈ BLOCKED_SEARCH) :
    movie sim q d c = .blockedMsg q ∧
    tvshow sim q d c = .blockedMsg q ∧
    (∀ msg, people sim q d c ≠ .blockedMsg msg) ∧
    BLOCKED_SEARCH.length = 4 := by
  refine ⟨by simp [movie, hb], by simp [tvshow, hb], ?_, rfl⟩
  intro msg
  unfold people
  cases d with
  | none => simp
  | some results =>
    cases c with
    | false => simp
    | true =>
      simp only [if_true]
      cases peoplePipeline sim q results <;> simp

/-- Witness for `claim10` at the concrete blocked query `"22 July"`. -/
theorem claim10_witness :
    pyLower "22 July" ∈ BLOCKED_SEARCH ∧
    (movie (fun _ _ => 0) "22 July" none false = .blockedMsg "22 July" ∧
      tvshow (fun _ _ => 0) "22 July" none false = .blockedMsg "22 July" ∧
      (∀ msg, people (fun _ _ => 0) "22 July" none false ≠ .blockedMsg msg) ∧
      BLOCKED_SEARCH.length = 4) :=
  ⟨by decide, claim10 (fun _ _ => 0) "22 July" none false (by decide)⟩

/-- Claim C3.  Ranking neither drops nor duplicates results: whenever the
sort succeeds, its output has the same length as its input and is a
permutation of it, so the multiset of `id`s is preserved exactly and no
truncation occurs; shown for the movie and people rankings. -/
theorem claim3 (sim : String → String → ℚ) (query : String)
    (rs out rs2 out2 : List ResultRec)
    (h : rankMovie sim query rs = .ok out)
    (h2 : rankPeople sim query rs2 = .ok out2) :
    out.length = rs.length ∧ out.Perm rs ∧
    (out.map ResultRec.id).Perm (rs.map ResultRec.id) ∧
    out2.length = rs2.length ∧ out2.Perm rs2 ∧
    (out2.map ResultRec.id).Perm (rs2.map ResultRec.id) := by
  have p1 : out.Perm rs := pySortedByDesc_perm h
  have p2 : out2.Perm rs2 := pySortedByDesc_perm h2
  exact ⟨p1.length_eq, p1, p1.map _, p2.length_eq, p2, p2.map _⟩

/-- Witness for `claim3` on concrete one-element lists. -/
theorem claim3_witness :
    (rankMovie (fun _ _ => 0) "q" [⟨1, some "a", some "x", some 1, []⟩] =
        .ok [⟨1, some "a", some "x", some 1, []⟩] ∧
      rankPeople (fun _ _ => 0) "q" [⟨3, some "c", some "z", some 3, []⟩] =
        .ok [⟨3, some "c", some "z", some 3, []⟩]) ∧
    (([⟨1, some "a", some "x", some 1, []⟩] : List ResultRec).length =
        ([⟨1, some "a", some "x", some 1, []⟩] : List ResultRec).length ∧
      ([⟨1, some "a", some "x", some 1, []⟩] : List ResultRec).Perm
        [⟨1, some "a", some "x", some 1, []⟩] ∧
      (([⟨1, some "a", some "x", some 1, []⟩] : List ResultRec).map ResultRec.id).Perm
        (([⟨1, some "a", some "x", some 1, []⟩] : List ResultRec).map ResultRec.id) ∧
      ([⟨3, some "c", some "z", some 3, []⟩] : List ResultRec).length =
        ([⟨3, some "c", some "z", some 3, []⟩] : List ResultRec).length ∧
      ([⟨3, some "c", some "z", some 3, []⟩] : List ResultRec).Perm
        [⟨3, some "c", some "z", some 3, []⟩] ∧
      (([⟨3, some "c", some "z", some 3, []⟩] : List ResultRec).map ResultRec.id).Perm
        (([⟨3, some "c", some "z", some 3, []⟩] : List ResultRec).map ResultRec.id)) :=
  ⟨⟨by rfl, by rfl⟩,
    claim3 (fun _ _ => 0) "q" _ _ _ _ (by rfl) (by rfl)⟩

/-- Claim C7.  Normalization is order-preserving and touches only the
`popularity` field: whenever it succeeds, the output aligns with the input
position by position (`List.Forall₂`), with `id`, `title`, `name` and all
pass-through fields unchanged; shown for the movie and tvshow
normalizations. -/
theorem claim7 (rs mout tout : List ResultRec)
    (hm : movieNormalize rs = .ok mout)
    (ht : tvNormalize rs = .ok tout) :
    mout.length = rs.length ∧ tout.length = rs.length ∧
    List.Forall₂ sameFrame rs mout ∧ List.Forall₂ sameFrame rs tout := by
  have hmf : List.Forall₂ sameFrame rs mout := by
    rcases movieNormalize_ok_shape hm with ⟨m, _, rfl⟩
    rw [List.forall₂_map_right_iff]
    exact List.forall₂_same.mpr fun a _ => ⟨rfl, rfl, rfl, rfl⟩
  have htf : List.Forall₂ sameFrame rs tout := by
    rcases tvNormalize_ok_forall2 ht with ⟨p, ps, _, h2⟩
    refine h2.imp fun r b hb => ?_
    rcases tvRescale_ok_shape hb with ⟨q, _, _, rfl⟩
    exact ⟨rfl, rfl, rfl, rfl⟩
  exact ⟨hmf.length_eq.symm, htf.length_eq.symm, hmf, htf⟩

/-- Witness for `claim7` at a concrete one-record list (the rescaled
popularity is written as the unreduced rational `1 / 1 * 100`). -/
theorem claim7_witness :
    (movieNormalize [⟨1, some "t", some "n", some 1, [("k", "v")]⟩] =
        .ok [⟨1, some "t", some "n", some (1 / 1 * 100), [("k", "v")]⟩] ∧
      tvNormalize [⟨1, some "t", some "n", some 1, [("k", "v")]⟩] =
        .ok [⟨1, some "t", some "n", some (1 / 1 * 100), [("k", "v")]⟩]) ∧
    (([⟨1, some "t", some "n", some (1 / 1 * 100), [("k", "v")]⟩] : List ResultRec).length =
        ([⟨1, some "t", some "n", some 1, [("k", "v")]⟩] : List ResultRec).length ∧
      ([⟨1, some "t", some "n", some (1 / 1 * 100), [("k", "v")]⟩] : List ResultRec).length =
        ([⟨1, some "t", some "n", some 1, [("k", "v")]⟩] : List ResultRec).length ∧
      List.Forall₂ sameFrame [⟨1, some "t", some "n", some 1, [("k", "v")]⟩]
        [⟨1, some "t", some "n", some (1 / 1 * 100), [("k", "v")]⟩] ∧
      List.Forall₂ sameFrame [⟨1, some "t", some "n", some 1, [("k", "v")]⟩]
        [⟨1, some "t", some "n", some (1 / 1 * 100), [("k", "v")]⟩]) :=
  ⟨⟨by rfl, by rfl⟩, claim7 _ _ _ (by rfl) (by rfl)⟩

/-- Claim C9.  The movie normalization reads popularity with
`result.get("popularity", 0)`: it succeeds on any non-empty list, and
records lacking the field are treated as raw popularity `0` in both the
maximum and the rescaling (replacing every absent popularity by an explicit
`0` does not change its output).  The tvshow and people normalizations read
`result["popularity"]` and raise `KeyError` on such a record. -/
theorem claim9 (rs rs2 : List ResultRec) (r2 : ResultRec)
    (hne : rs ≠ []) (hr2 : r2 ∈ rs2) (hnone : r2.popularity = none) :
    (∃ out, movieNormalize rs = .ok out) ∧
    movieNormalize (rs.map fillPopZero) = movieNormalize rs ∧
    tvNormalize rs2 = .error (.keyError "popularity") ∧
    peopleNormalize rs2 = .error (.keyError "popularity") := by
  have hraw : ∀ a : ResultRec, movieRawPop (fillPopZero a) = movieRawPop a := by
    intro a
    simp [movieRawPop, fillPopZero]
  have hmap : (rs.map fillPopZero).map movieRawPop = rs.map movieRawPop := by
    rw [List.map_map]
    exact List.map_congr_left fun a _ => hraw a
  have hok : ∃ out, movieNormalize rs = .ok out := by
    rcases rs with _ | ⟨a, as⟩
    · exact absurd rfl hne
    · exact ⟨_, by rw [movieNormalize, movieMaxPop, List.map_cons]⟩
  have hrescale : ∀ (m : ℚ) (a : ResultRec),
      movieRescale m (fillPopZero a) = movieRescale m a := by
    intro m a
    rcases a with ⟨i, t, n, pp, ex⟩
    simp [movieRescale, fillPopZero, movieRawPop]
  have hfill : movieNormalize (rs.map fillPopZero) = movieNormalize rs := by
    have hmax : movieMaxPop (rs.map fillPopZero) = movieMaxPop rs := by
      rw [movieMaxPop, movieMaxPop, hmap]
    rw [movieNormalize, movieNormalize, hmax]
    cases hm : movieMaxPop rs with
    | error e => rfl
    | ok m =>
      dsimp only
      rw [List.map_map]
      exact congrArg Except.ok (List.map_congr_left fun a _ => hrescale m a)
  have htv : tvNormalize rs2 = .error (.keyError "popularity") := by
    have herr : mapE getPopStrict rs2 = .error (.keyError "popularity") := by
      refine mapE_error_of ?_ ⟨r2, hr2, by simp [getPopStrict, hnone]⟩
      intro a _
      cases ha : a.popularity with
      | none => exact Or.inl (by simp [getPopStrict, ha])
      | some p => exact Or.inr ⟨p, by simp [getPopStrict, ha]⟩
    rw [tvNormalize, herr]
  exact ⟨hok, hfill, htv, by rw [peopleNormalize_eq_tvNormalize]; exact htv⟩

/-- Claim C2.  The ranked output is sorted non-increasing by rank score
(similarity plus normalized popularity, the precomputed sort keys), and the
sort is stable: for every score value, the subsequence of key/record pairs
carrying that score is exactly the same — in the same order — in the sorted
list as in the decorated input, which is the claim's "equal-score results
keep their input order"; shown for the movie and tvshow rankings. -/
theorem claim2 (sim : String → String → ℚ) (query : String)
    (rs rs2 : List ResultRec) (keyed keyed2 : List (ℚ × ResultRec))
    (h : decorate (movieKey sim query) rs = .ok keyed)
    (h2 : decorate (nameKey sim query) rs2 = .ok keyed2) :
    rankMovie sim query rs = .ok ((List.insertionSort rdesc keyed).map Prod.snd) ∧
    List.Sorted (fun a b : ℚ => b ≤ a)
      ((List.insertionSort rdesc keyed).map Prod.fst) ∧
    (∀ s : ℚ, (List.insertionSort rdesc keyed).filter (fun p => p.1 = s) =
      keyed.filter (fun p => p.1 = s)) ∧
    rankTv sim query rs2 = .ok ((List.insertionSort rdesc keyed2).map Prod.snd) ∧
    List.Sorted (fun a b : ℚ => b ≤ a)
      ((List.insertionSort rdesc keyed2).map Prod.fst) ∧
    (∀ s : ℚ, (List.insertionSort rdesc keyed2).filter (fun p => p.1 = s) =
      keyed2.filter (fun p => p.1 = s)) := by
  refine ⟨?_, sorted_fst_insertionSort keyed, fun s => filter_insertionSort s keyed,
    ?_, sorted_fst_insertionSort keyed2, fun s => filter_insertionSort s keyed2⟩
  · rw [rankMovie, pySortedByDesc, h]
  · rw [rankTv, pySortedByDesc, h2]

/-- Witness for `claim2` at a concrete query and one-record lists (the sort
key is written as the unreduced rational `0 + 1`). -/
theorem claim2_witness :
    (decorate (movieKey (fun _ _ => 0) "q") [⟨1, some "a", none, some 1, []⟩] =
        .ok [((0 + 1 : ℚ), ⟨1, some "a", none, some 1, []⟩)] ∧
      decorate (nameKey (fun _ _ => 0) "q") [⟨2, none, some "b", some 1, []⟩] =
        .ok [((0 + 1 : ℚ), ⟨2, none, some "b", some 1, []⟩)]) ∧
    (rankMovie (fun _ _ => 0) "q" [⟨1, some "a", none, some 1, []⟩] =
        .ok ((List.insertionSort rdesc
          [((0 + 1 : ℚ), ⟨1, some "a", none, some 1, []⟩)]).map Prod.snd) ∧
      List.Sorted (fun a b : ℚ => b ≤ a)
        ((List.insertionSort rdesc
          [((0 + 1 : ℚ), ⟨1, some "a", none, some 1, []⟩)]).map Prod.fst) ∧
      (∀ s : ℚ, (List.insertionSort rdesc
          [((0 + 1 : ℚ), ⟨1, some "a", none, some 1, []⟩)]).filter (fun p => p.1 = s) =
        ([((0 + 1 : ℚ), ⟨1, some "a", none, some 1, []⟩)] :
          List (ℚ × ResultRec)).filter (fun p => p.1 = s)) ∧
      rankTv (fun _ _ => 0) "q" [⟨2, none, some "b", some 1, []⟩] =
        .ok ((List.insertionSort rdesc
          [((0 + 1 : ℚ), ⟨2, none, some "b", some 1, []⟩)]).map Prod.snd) ∧
      List.Sorted (fun a b : ℚ => b ≤ a)
        ((List.insertionSort rdesc
          [((0 + 1 : ℚ), ⟨2, none, some "b", some 1, []⟩)]).map Prod.fst) ∧
      (∀ s : ℚ, (List.insertionSort rdesc
          [((0 + 1 : ℚ), ⟨2, none, some "b", some 1, []⟩)]).filter (fun p => p.1 = s) =
        ([((0 + 1 : ℚ), ⟨2, none, some "b", some 1, []⟩)] :
          List (ℚ × ResultRec)).filter (fun p => p.1 = s))) :=
  ⟨⟨by rfl, by rfl⟩,
    claim2 (fun _ _ => 0) "q" _ _ _ _ (by rfl) (by rfl)⟩

/-- Claim C6.  When the field selector cannot extract the comparison string —
a normalized movie record without `"title"`, a normalized tvshow record
without `"name"` — ranking raises the missing-field error (Python's
`KeyError` naming the field, the realization of the spec's `MissingField`),
and the command propagates it to the caller without retry or local
recovery. -/
theorem claim6 (sim : String → String → ℚ) (query : String)
    (rs nrs rs2 nrs2 : List ResultRec) (r r2 : ResultRec)
    (hb : pyLower query ∉ BLOCKED_SEARCH)
    (hn : movieNormalize rs = .ok nrs) (hr : r ∈ nrs) (hmiss : r.title = none)
    (hn2 : tvNormalize rs2 = .ok nrs2) (hr2 : r2 ∈ nrs2) (hmiss2 : r2.name = none) :
    rankMovie sim query nrs = .error (.keyError "title") ∧
    movie sim query (some rs) true = .raised (.keyError "title") ∧
    rankTv sim query nrs2 = .error (.keyError "name") ∧
    tvshow sim query (some rs2) true = .raised (.keyError "name") := by
  have hpop := movieNormalize_popSome hn
  have hpop2 := tvNormalize_popSome hn2
  have hdec : decorate (movieKey sim query) nrs = .error (.keyError "title") := by
    rw [decorate]
    refine mapE_error_of ?_ ⟨r, hr, by simp [movieKey, hmiss]⟩
    intro a ha
    cases ht : a.title with
    | none => exact Or.inl (by simp [movieKey, ht])
    | some t =>
      rcases Option.isSome_iff_exists.mp (hpop a ha) with ⟨p, hp⟩
      exact Or.inr ⟨(sim query t + p, a), by simp [movieKey, ht, hp]⟩
  have hdec2 : decorate (nameKey sim query) nrs2 = .error (.keyError "name") := by
    rw [decorate]
    refine mapE_error_of ?_ ⟨r2, hr2, by simp [nameKey, hmiss2]⟩
    intro a ha
    cases ht : a.name with
    | none => exact Or.inl (by simp [nameKey, ht])
    | some t =>
      rcases Option.isSome_iff_exists.mp (hpop2 a ha) with ⟨p, hp⟩
      exact Or.inr ⟨(sim query t + p, a), by simp [nameKey, ht, hp]⟩
  have hrank : rankMovie sim query nrs = .error (.keyError "title") := by
    rw [rankMovie, pySortedByDesc, hdec]
  have hrank2 : rankTv sim query nrs2 = .error (.keyError "name") := by
    rw [rankTv, pySortedByDesc, hdec2]
  refine ⟨hrank, ?_, hrank2, ?_⟩
  · simp [movie, hb, moviePipeline, hn, hrank]
  · simp [tvshow, hb, tvPipeline, hn2, hrank2]

/-- Witness for `claim6` at concrete records lacking the compared field. -/
theorem claim6_witness :
    (pyLower "a" ∉ BLOCKED_SEARCH ∧
      movieNormalize [⟨1, none, some "n", some 1, []⟩] =
        .ok [⟨1, none, some "n", some (1 / 1 * 100), []⟩] ∧
      (⟨1, none, some "n", some (1 / 1 * 100), []⟩ : ResultRec) ∈
        ([⟨1, none, some "n", some (1 / 1 * 100), []⟩] : List ResultRec) ∧
      (⟨1, none, some "n", some (1 / 1 * 100), []⟩ : ResultRec).title = none ∧
      tvNormalize [⟨2, some "t", none, some 1, []⟩] =
        .ok [⟨2, some "t", none, some (1 / 1 * 100), []⟩] ∧
      (⟨2, some "t", none, some (1 / 1 * 100), []⟩ : ResultRec) ∈
        ([⟨2, some "t", none, some (1 / 1 * 100), []⟩] : List ResultRec) ∧
      (⟨2, some "t", none, some (1 / 1 * 100), []⟩ : ResultRec).name = none) ∧
    (rankMovie (fun _ _ => 0) "a" [⟨1, none, some "n", some (1 / 1 * 100), []⟩] =
        .error (.keyError "title") ∧
      movie (fun _ _ => 0) "a" (some [⟨1, none, some "n", some 1, []⟩]) true =
        .raised (.keyError "title") ∧
      rankTv (fun _ _ => 0) "a" [⟨2, some "t", none, some (1 / 1 * 100), []⟩] =
        .error (.keyError "name") ∧
      tvshow (fun _ _ => 0) "a" (some [⟨2, some "t", none, some 1, []⟩]) true =
        .raised (.keyError "name")) :=
  ⟨⟨by decide, by rfl, List.mem_singleton_self _, rfl, by rfl,
      List.mem_singleton_self _, rfl⟩,
    claim6 (fun _ _ => 0) "a" [⟨1, none, some "n", some 1, []⟩]
      [⟨1, none, some "n", some (1 / 1 * 100), []⟩]
      [⟨2, some "t", none, some 1, []⟩]
      [⟨2, some "t", none, some (1 / 1 * 100), []⟩]
      ⟨1, none, some "n", some (1 / 1 * 100), []⟩
      ⟨2, some "t", none, some (1 / 1 * 100), []⟩
      (by decide) (by rfl) (List.mem_singleton_self _) rfl (by rfl)
      (List.mem_singleton_self _) rfl⟩

/-- Witness for `claim9` at concrete inputs with absent popularity. -/
theorem claim9_witness :
    (([⟨1, none, none, none, []⟩] : List ResultRec) ≠ [] ∧
      (⟨2, none, none, none, []⟩ : ResultRec) ∈
        ([⟨2, none, none, none, []⟩] : List ResultRec) ∧
      (⟨2, none, none, none, []⟩ : ResultRec).popularity = none) ∧
    ((∃ out, movieNormalize [⟨1, none, none, none, []⟩] = .ok out) ∧
      movieNormalize (([⟨1, none, none, none, []⟩] : List ResultRec).map fillPopZero) =
        movieNormalize [⟨1, none, none, none, []⟩] ∧
      tvNormalize [⟨2, none, none, none, []⟩] = .error (.keyError "popularity") ∧
      peopleNormalize [⟨2, none, none, none, []⟩] = .error (.keyError "popularity")) :=
  ⟨⟨by decide, by decide, by decide⟩,
    claim9 [⟨1, none, none, none, []⟩] [⟨2, none, none, none, []⟩]
      ⟨2, none, none, none, []⟩ (by decide) (by decide) (by decide)⟩

/-- Claim C4, counterexample.  The claim says normalization produces exactly
one result at normalized popularity `100`.  When two records tie at the
maximum raw popularity, both rescale to exactly `100`: on this concrete
input the count of outputs at `100` is `2`, not `1`. -/
theorem claim4_counterexample :
    movieNormalize
        [⟨1, some "a", none, some 1, []⟩, ⟨2, some "b", none, some 1, []⟩] =
      .ok [⟨1, some "a", none, some 100, []⟩, ⟨2, some "b", none, some 100, []⟩] ∧
    ([⟨1, some "a", none, some 100, []⟩,
      ⟨2, some "b", none, some 100, []⟩] : List ResultRec).countP
        (fun r => r.popularity = some 100) ≠ 1 := by
  constructor
  · simp [movieNormalize, movieMaxPop, movieRescale, movieRawPop]
  · decide

/-- Claim C4, amended.  When at least one raw popularity is strictly
positive, normalization produces at least one result with normalized
popularity exactly `100`, and the results normalizing to exactly `100` are
precisely those whose raw popularity equals the maximum (so "exactly one"
holds only when the maximum is attained uniquely); shown for the movie and
people normalizations. -/
theorem claim4_amended (rs rs2 : List ResultRec) (m p : ℚ) (ps : List ℚ)
    (hm : movieMaxPop rs = .ok m)
    (hpos : ∃ r ∈ rs, 0 < movieRawPop r)
    (hps : mapE getPopStrict rs2 = .ok (p :: ps))
    (hpos2 : 0 < ps.foldl max p) :
    ∃ out out2,
      movieNormalize rs = .ok out ∧
      0 < out.countP (fun r => r.popularity = some 100) ∧
      out.countP (fun r => r.popularity = some 100) =
        rs.countP (fun r => movieRawPop r = m) ∧
      peopleNormalize rs2 = .ok out2 ∧
      0 < out2.countP (fun r => r.popularity = some 100) ∧
      out2.countP (fun r => r.popularity = some 100) =
        rs2.countP (fun r => r.popularity = some (ps.foldl max p)) := by
  obtain ⟨q, qs, hq, hmval⟩ :
      ∃ q qs, rs.map movieRawPop = q :: qs ∧ m = qs.foldl max q := by
    unfold movieMaxPop at hm
    split at hm
    · simp at hm
    · rename_i q qs hqs
      simp only [Except.ok.injEq] at hm
      exact ⟨q, qs, hqs, hm.symm⟩
  have hle : ∀ r ∈ rs, movieRawPop r ≤ m := by
    intro r hr
    have hmem : movieRawPop r ∈ q :: qs := hq ▸ List.mem_map_of_mem movieRawPop hr
    rcases List.mem_cons.mp hmem with heq | hmem'
    · rw [hmval, heq]
      exact le_foldl_max qs q
    · rw [hmval]
      exact mem_le_foldl_max q hmem'
  have hmpos : 0 < m := by
    rcases hpos with ⟨r0, hr0, h0⟩
    exact lt_of_lt_of_le h0 (hle r0 hr0)
  have hmne : m ≠ 0 := ne_of_gt hmpos
  have hattain : ∃ a ∈ rs, movieRawPop a = m := by
    have hmem : m ∈ q :: qs := by
      rcases foldl_max_mem qs q with h | h
      · rw [hmval, h]
        exact List.mem_cons_self q qs
      · rw [hmval]
        exact List.mem_cons_of_mem q h
    rw [← hq] at hmem
    rcases List.mem_map.mp hmem with ⟨a, ha, haeq⟩
    exact ⟨a, ha, haeq⟩
  have hout : movieNormalize rs = .ok (rs.map (movieRescale m)) := by
    rw [movieNormalize, hm]
  have hcnt : (rs.map (movieRescale m)).countP (fun r => r.popularity = some 100) =
      rs.countP (fun r => movieRawPop r = m) := by
    rw [List.countP_map]
    refine List.countP_congr ?_
    intro a _
    simp only [Function.comp_apply, movieRescale, if_neg hmne,
      decide_eq_true_eq, Option.some.injEq]
    exact div_mul_hundred hmne
  have hposc : 0 < (rs.map (movieRescale m)).countP
      (fun r => r.popularity = some 100) := by
    rw [hcnt, List.countP_pos_iff]
    rcases hattain with ⟨a, ha, haeq⟩
    exact ⟨a, ha, by simp [haeq]⟩
  have hm2ne : ps.foldl max p ≠ 0 := ne_of_gt hpos2
  have hf2 := mapE_ok_forall2 hps
  have hresc : ∀ r ∈ rs2, tvRescale (ps.foldl max p) r =
      .ok { r with popularity := some (r.popularity.getD 0 / ps.foldl max p * 100) } := by
    intro r hr
    rcases forall2_mem_left hf2 r hr with ⟨v, _, hv⟩
    have hrv := getPopStrict_ok hv
    simp [tvRescale, hrv, hm2ne]
  have hmap2 : mapE (tvRescale (ps.foldl max p)) rs2 =
      .ok (rs2.map fun r => { r with popularity := some (r.popularity.getD 0 / ps.foldl max p * 100) }) :=
    mapE_ok_of_forall hresc
  have hout2 : peopleNormalize rs2 = .ok (rs2.map fun r =>
      { r with popularity := some (r.popularity.getD 0 / ps.foldl max p * 100) }) := by
    rw [peopleNormalize, hps]
    exact hmap2
  have hcnt2 : (rs2.map fun r => ({ r with popularity := some (r.popularity.getD 0 / ps.foldl max p * 100) } : ResultRec)).countP
        (fun r => r.popularity = some 100) =
      rs2.countP (fun r => r.popularity = some (ps.foldl max p)) := by
    rw [List.countP_map]
    refine List.countP_congr ?_
    intro a ha
    rcases forall2_mem_left hf2 a ha with ⟨v, _, hv⟩
    have hav := getPopStrict_ok hv
    simp only [Function.comp_apply, hav, Option.getD_some,
      decide_eq_true_eq, Option.some.injEq]
    exact div_mul_hundred hm2ne
  have hattain2 : ∃ a ∈ rs2, a.popularity = some (ps.foldl max p) := by
    have hmem : ps.foldl max p ∈ p :: ps := by
      rcases foldl_max_mem ps p with h | h
      · rw [h]
        exact List.mem_cons_self p ps
      · exact List.mem_cons_of_mem p h
    rcases forall2_mem_right hf2 _ hmem with ⟨a, ha, hok⟩
    exact ⟨a, ha, getPopStrict_ok hok⟩
  have hposc2 : 0 < (rs2.map fun r => ({ r with popularity := some (r.popularity.getD 0 / ps.foldl max p * 100) } : ResultRec)).countP
        (fun r => r.popularity = some 100) := by
    rw [hcnt2, List.countP_pos_iff]
    rcases hattain2 with ⟨a, ha, haeq⟩
    exact ⟨a, ha, by simp [haeq]⟩
  exact ⟨_, _, hout, hposc, hcnt, hout2, hposc2, hcnt2⟩

/-- Witness for `claim4_amended` at concrete one-record lists of raw
popularity `1`. -/
theorem claim4_amended_witness :
    (movieMaxPop [⟨1, some "a", none, some 1, []⟩] = .ok 1 ∧
      (∃ r ∈ ([⟨1, some "a", none, some 1, []⟩] : List ResultRec),
        0 < movieRawPop r) ∧
      mapE getPopStrict [⟨2, none, some "b", some 1, []⟩] = .ok (1 :: []) ∧
      0 < ([] : List ℚ).foldl max 1) ∧
    (∃ out out2,
      movieNormalize [⟨1, some "a", none, some 1, []⟩] = .ok out ∧
      0 < out.countP (fun r => r.popularity = some 100) ∧
      out.countP (fun r => r.popularity = some 100) =
        ([⟨1, some "a", none, some 1, []⟩] : List ResultRec).countP
          (fun r => movieRawPop r = 1) ∧
      peopleNormalize [⟨2, none, some "b", some 1, []⟩] = .ok out2 ∧
      0 < out2.countP (fun r => r.popularity = some 100) ∧
      out2.countP (fun r => r.popularity = some 100) =
        ([⟨2, none, some "b", some 1, []⟩] : List ResultRec).countP
          (fun r => r.popularity = some (([] : List ℚ).foldl max 1))) :=
  ⟨⟨by rfl, by decide, by rfl, by decide⟩,
    claim4_amended [⟨1, some "a", none, some 1, []⟩]
      [⟨2, none, some "b", some 1, []⟩] 1 1 []
      (by rfl) (by decide) (by rfl) (by decide)⟩

end SudoTmdb
